import Mathlib

/-!
# Verification of the Fotoserver image service (`main.py`)

A shallow embedding of the request handlers of the Fotoserver FastAPI
application: upload (`upload_file`), paginated listing (`images_page`),
bulk deletion (`delete_selected`) and single deletion (`delete_image`),
together with a model of the POSIX path primitives the handlers rely on
(`os.path.join`, OS-level resolution of `.` and `..` segments, and
`os.path.splitext`).

The filesystem is modelled as an association list from resolved path
component lists to byte contents; the storage directory is the
`UPLOAD_DIR` (`"images"`) folder under the process working directory.
-/

/-- A path component: the characters between two `/` separators. -/
abbrev Comp := List Char

/-- A fully resolved path: the list of its components, root first. -/
abbrev FPath := List Comp

/-- A filesystem: an association list from resolved paths to file bytes. -/
abbrev FS := List (FPath × List Nat)

/-- Whether a file exists at resolved path `p` (model of `os.path.exists`
after OS-level resolution). -/
def FS.existsPath (fs : FS) (p : FPath) : Bool :=
  fs.any fun e => decide (e.1 = p)

/-- Remove the file at resolved path `p` (model of `os.remove`). -/
def FS.removePath (fs : FS) (p : FPath) : FS :=
  fs.filter fun e => decide (e.1 ≠ p)

/-- Write bytes at resolved path `p` (model of `open(p, "wb")` +
`shutil.copyfileobj`: truncate/replace any existing file, then write). -/
def FS.writePath (fs : FS) (p : FPath) (bs : List Nat) : FS :=
  (p, bs) :: fs.filter fun e => decide (e.1 ≠ p)

/-- Split a character list at `/` separators, keeping empty groups. -/
def splitOnSlash : List Char → List Comp
  | [] => [[]]
  | c :: rest =>
    if c = '/' then [] :: splitOnSlash rest
    else
      match splitOnSlash rest with
      | [] => [[c]]
      | g :: gs => (c :: g) :: gs

/-- The non-empty components of a path string's characters. -/
def splitPath (cs : List Char) : List Comp :=
  (splitOnSlash cs).filter fun g => decide (g ≠ [])

/-- OS-level resolution of `.` and `..` segments against a base path
(the semantics the kernel applies when a handler touches
`images/../../etc/passwd`; `..` at the root stays at the root). -/
def normSegs (base : FPath) : List Comp → FPath
  | [] => base
  | c :: rest =>
    if c = ['.'] then normSegs base rest
    else if c = ['.', '.'] then normSegs base.dropLast rest
    else normSegs (base ++ [c]) rest

/-- Resolve a path string against the working directory `cwd`:
absolute paths resolve from the root, relative ones from `cwd`. -/
def resolve (cwd : FPath) (p : String) : FPath :=
  if p.data.head? = some '/' then normSegs [] (splitPath p.data)
  else normSegs cwd (splitPath p.data)

/-- `os.path.join(a, b)` for POSIX paths, as CPython implements it. -/
def ospathJoin (a b : String) : String :=
  if b.data.head? = some '/' then b
  else if a.data = [] ∨ a.data.getLast? = some '/' then a ++ b
  else a ++ "/" ++ b

/-- The configured upload directory (default of the `UPLOAD_DIR` setting). -/
def UPLOAD_DIR : String := "images"

/-- The component naming the storage directory. -/
def imagesComp : Comp := UPLOAD_DIR.data

/-- The resolved path of the storage directory for working directory `cwd`. -/
def storageDir (cwd : FPath) : FPath := cwd ++ [imagesComp]

/-- Whether resolved path `p` lies inside the storage directory. -/
def inStorage (cwd : FPath) (p : FPath) : Prop :=
  p.take (storageDir cwd).length = storageDir cwd

instance (cwd p) : Decidable (inStorage cwd p) := by
  unfold inStorage; infer_instance

/-- A name is a bare filename: non-empty, no `/` separator, and not one
of the special entries `.` and `..`. -/
def bareName (s : String) : Prop :=
  s.data ≠ [] ∧ '/' ∉ s.data ∧ s.data ≠ ['.'] ∧ s.data ≠ ['.', '.']

instance (s) : Decidable (bareName s) := by
  unfold bareName; infer_instance

/-- Model of FastAPI's `HTTPError`. -/
structure HTTPError where
  status_code : Nat
  detail : String
deriving DecidableEq

instance {ε α : Type} [DecidableEq ε] [DecidableEq α] :
    DecidableEq (Except ε α) := fun a b =>
  match a, b with
  | .ok x, .ok y =>
    if h : x = y then .isTrue (by simp [h]) else .isFalse (by simp [h])
  | .error x, .error y =>
    if h : x = y then .isTrue (by simp [h]) else .isFalse (by simp [h])
  | .ok _, .error _ => .isFalse (by simp)
  | .error _, .ok _ => .isFalse (by simp)

/-- `POST /delete/{filename}` (`delete_image` in `main.py`): join the
caller-supplied name onto `UPLOAD_DIR`; if a file exists at the resolved
path remove it and answer success, otherwise answer 404. -/
def delete_image (cwd : FPath) (fs : FS) (filename : String) :
    FS × Except HTTPError String :=
  let file_path := resolve cwd (ospathJoin UPLOAD_DIR filename)
  if fs.existsPath file_path then
    (fs.removePath file_path, Except.ok "Файл удалён")
  else
    (fs, Except.error ⟨404, "Файл не найден"⟩)

/-- `POST /delete-selected` (`delete_selected` in `main.py`): process the
supplied names left to right, deleting each existing file and recording
every name in either `deleted` or `not_found`. -/
def delete_selected (cwd : FPath) (fs : FS) (filenames : List String) :
    FS × List String × List String :=
  match filenames with
  | [] => (fs, [], [])
  | f :: rest =>
    let file_path := resolve cwd (ospathJoin UPLOAD_DIR f)
    if fs.existsPath file_path then
      let r := delete_selected cwd (fs.removePath file_path) rest
      (r.1, f :: r.2.1, r.2.2)
    else
      let r := delete_selected cwd fs rest
      (r.1, r.2.1, f :: r.2.2)

/-- Index of the last occurrence of `c` in `cs`, or `-1` (model of
Python's `str.rfind`). -/
def lastIdxAux (c : Char) (i : Nat) (best : Int) : List Char → Int
  | [] => best
  | x :: rest => lastIdxAux c (i + 1) (if x = c then (i : Int) else best) rest

/-- `p.rfind(c)` for a single character: last index or `-1`. -/
def lastIdxOfI (cs : List Char) (c : Char) : Int :=
  lastIdxAux c 0 (-1) cs

/-- The extension part of `os.path.splitext(p)` (POSIX): the suffix from
the last dot onwards, provided that dot comes after the last `/` and the
basename is not made of leading dots only. -/
def splitext_ext (p : String) : String :=
  let cs := p.data
  let sepIdx := lastIdxOfI cs '/'
  let dotIdx := lastIdxOfI cs '.'
  if sepIdx < dotIdx ∧
      ((List.range cs.length).any fun j =>
        decide (sepIdx < (j : Int)) && decide ((j : Int) < dotIdx)
          && decide (cs.getD j '.' ≠ '.')) = true
  then String.mk (cs.drop dotIdx.toNat)
  else ""

/-- The media types the upload endpoint accepts. -/
def allowedTypes : List String := ["image/jpeg", "image/png", "image/gif"]

/-- The 400 answer for a media type outside `allowedTypes`. -/
def unsupportedTypeExc : HTTPError := ⟨400, "Неподдерживаемый тип файла"⟩

/-- The 400 answer for an oversized upload. -/
def fileTooLargeExc : HTTPError := ⟨400, "Файл превышает допустимый размер"⟩

/-- `uuid.uuid4().hex`: 32 lowercase hexadecimal characters. -/
def isHex32 (t : String) : Prop :=
  t.length = 32 ∧ ∀ c ∈ t.data, c ∈ "0123456789abcdef".data

instance (t) : Decidable (isHex32 t) := by
  unfold isHex32; infer_instance

/-- `POST /upload` (`upload_file` in `main.py`). `maxMB` is the
`MAX_FILE_SIZE_MB` setting (default 5); `token` stands for the value of
`uuid.uuid4().hex` drawn on this call. Checks the declared media type,
then the byte length, then stores the bytes under `token ++ ext` and
answers with the public URL. -/
def upload_file (maxMB : Nat) (token : String) (cwd : FPath) (fs : FS)
    (content_type filename : String) (bytes : List Nat) :
    FS × Except HTTPError String :=
  if content_type ∉ allowedTypes then
    (fs, Except.error unsupportedTypeExc)
  else if bytes.length > maxMB * 1024 * 1024 then
    (fs, Except.error fileTooLargeExc)
  else
    let ext := splitext_ext filename
    let unique_name := token ++ ext
    let file_path := resolve cwd (ospathJoin UPLOAD_DIR unique_name)
    (fs.writePath file_path bytes, Except.ok ("/images/" ++ unique_name))

/-- Python list slicing `xs[a:b]` (step 1): negative indices count from
the end, then both bounds are clamped to `[0, len]`. -/
def pySlice (xs : List String) (a b : Int) : List String :=
  let n : Int := xs.length
  let i := if a < 0 then max (n + a) 0 else min a n
  let j := if b < 0 then max (n + b) 0 else min b n
  (xs.drop i.toNat).take (j - i).toNat

/-- Python's `<` on strings: lexicographic comparison of the code-point
sequences. -/
def strLtB : List Char → List Char → Bool
  | [], [] => false
  | [], _ :: _ => true
  | _ :: _, [] => false
  | a :: as, b :: bs =>
    if a < b then true else if b < a then false else strLtB as bs

/-- Python's `<=` on strings. -/
def strLeB (s t : String) : Bool := !(strLtB t.data s.data)

/-- Python's `sorted` on strings: a stable sort by `<=` (lexicographic by
code point), modelled by insertion sort. -/
def sortedFiles (files : List String) : List String :=
  List.insertionSort (fun s t => strLeB s t = true) files

/-- The gallery view data: per entry its name and public URL, plus the
page number and the next-page flag. -/
structure PageView where
  images : List (String × String)
  page : Int
  has_next : Bool
deriving DecidableEq

/-- `GET /images` (`images_page` in `main.py`): sort the directory
listing, slice out the requested 50-entry page, report `has_next`. -/
def images_page (files : List String) (page : Int) : PageView :=
  let per_page : Int := 50
  let sorted_files := sortedFiles files
  let total_files : Int := sorted_files.length
  let start := (page - 1) * per_page
  let endI := start + per_page
  let paginated_files := pySlice sorted_files start endI
  { images := paginated_files.map fun f => (f, "/images/" ++ f)
    page := page
    has_next := decide (endI < total_files) }

/-! ## Helper lemmas about the path model -/

theorem splitOnSlash_ne_nil (cs : List Char) : splitOnSlash cs ≠ [] := by
  cases cs with
  | nil => simp [splitOnSlash]
  | cons c rest =>
    unfold splitOnSlash
    by_cases h : c = '/'
    · simp [h]
    · simp only [if_neg h]
      cases hs : splitOnSlash rest <;> simp

theorem splitOnSlash_no_slash (cs : List Char) (h : '/' ∉ cs) :
    splitOnSlash cs = [cs] := by
  induction cs with
  | nil => rfl
  | cons c rest ih =>
    have hc : c ≠ '/' := fun hc => h (hc ▸ List.mem_cons_self c rest)
    have hr : '/' ∉ rest := fun hr => h (List.mem_cons_of_mem c hr)
    unfold splitOnSlash
    rw [if_neg hc, ih hr]

theorem splitOnSlash_append (xs ys : List Char) (h : '/' ∉ xs) :
    splitOnSlash (xs ++ '/' :: ys) = xs :: splitOnSlash ys := by
  induction xs with
  | nil => simp [splitOnSlash]
  | cons x xs ih =>
    have hx : x ≠ '/' := fun hc => h (hc ▸ List.mem_cons_self x xs)
    have hr : '/' ∉ xs := fun hr => h (List.mem_cons_of_mem x hr)
    simp only [List.cons_append, splitOnSlash, List.append_eq, if_neg hx, ih hr]

theorem resolve_join_bare (cwd : FPath) (name : String) (h : bareName name) :
    resolve cwd (ospathJoin UPLOAD_DIR name) = cwd ++ [imagesComp, name.data] := by
  obtain ⟨hne, hns, hd1, hd2⟩ := h
  have hhead : name.data.head? ≠ some '/' := by
    intro hh
    cases hcs : name.data with
    | nil => rw [hcs] at hh; simp at hh
    | cons c rest =>
      rw [hcs] at hh
      simp only [List.head?] at hh
      exact hns (by rw [hcs, Option.some.injEq] at *; exact hh ▸ List.mem_cons_self c rest)
  have hjoin : ospathJoin UPLOAD_DIR name = "images/" ++ name := by
    unfold ospathJoin UPLOAD_DIR
    rw [if_neg hhead, if_neg (by decide)]
    rw [show ("images" ++ "/" : String) = "images/" from by decide]
  rw [hjoin]
  unfold resolve
  have hdata : ("images/" ++ name).data = ['i', 'm', 'a', 'g', 'e', 's'] ++ '/' :: name.data := by
    have : ("images/" ++ name).data = "images/".data ++ name.data := String.data_append ..
    rw [this]; rfl
  rw [hdata, if_neg (by simp)]
  unfold splitPath
  rw [splitOnSlash_append _ _ (by decide), splitOnSlash_no_slash _ hns]
  have hfil :
      (([ 'i', 'm', 'a', 'g', 'e', 's'] :: [name.data]).filter fun g => decide (g ≠ []))
        = [['i', 'm', 'a', 'g', 'e', 's'], name.data] := by
    simp [List.filter, hne]
  rw [hfil]
  unfold normSegs
  rw [if_neg (by decide), if_neg (by decide)]
  unfold normSegs
  rw [if_neg hd1, if_neg hd2]
  unfold normSegs
  simp [imagesComp, UPLOAD_DIR]

/-! ## Helper lemmas about the filesystem model -/

theorem existsPath_iff (fs : FS) (p : FPath) :
    fs.existsPath p = true ↔ ∃ bs, (p, bs) ∈ fs := by
  unfold FS.existsPath
  rw [List.any_eq_true]
  constructor
  · rintro ⟨⟨q, bs⟩, hmem, hq⟩
    exact ⟨bs, by simpa using (of_decide_eq_true hq ▸ hmem)⟩
  · rintro ⟨bs, hmem⟩
    exact ⟨(p, bs), hmem, by simp⟩

theorem mem_removePath (fs : FS) (p q : FPath) (bs : List Nat) :
    (q, bs) ∈ fs.removePath p ↔ (q, bs) ∈ fs ∧ q ≠ p := by
  unfold FS.removePath
  rw [List.mem_filter]
  simp

theorem mem_removePath_of_ne (fs : FS) (p q : FPath) (bs : List Nat)
    (hmem : (q, bs) ∈ fs) (hne : q ≠ p) : (q, bs) ∈ fs.removePath p :=
  (mem_removePath fs p q bs).2 ⟨hmem, hne⟩

theorem storage_entry_ne (cwd : FPath) (m m' : Comp) (h : m ≠ m') :
    cwd ++ [imagesComp, m] ≠ cwd ++ [imagesComp, m'] := by
  intro heq
  have := List.append_cancel_left heq
  simp only [List.cons.injEq, and_true] at this
  exact h this.2

/-! ## Behaviour of the bulk-delete handler -/

theorem delete_selected_partition (cwd : FPath) (names : List String) :
    ∀ fs : FS,
      (∀ x : String,
        (delete_selected cwd fs names).2.1.count x
          + (delete_selected cwd fs names).2.2.count x = names.count x)
      ∧ (delete_selected cwd fs names).2.1.Sublist names
      ∧ (delete_selected cwd fs names).2.2.Sublist names := by
  induction names with
  | nil =>
    intro fs
    refine ⟨fun x => by simp [delete_selected], ?_, ?_⟩ <;>
      simp [delete_selected]
  | cons f rest ih =>
    intro fs
    simp only [delete_selected]
    split
    · have h := ih (fs.removePath (resolve cwd (ospathJoin UPLOAD_DIR f)))
      refine ⟨fun x => ?_, List.Sublist.cons₂ f h.2.1,
        List.Sublist.cons f h.2.2⟩
      have h1 := h.1 x
      simp only [List.count_cons]
      omega
    · have h := ih fs
      refine ⟨fun x => ?_, List.Sublist.cons f h.2.1,
        List.Sublist.cons₂ f h.2.2⟩
      have h1 := h.1 x
      simp only [List.count_cons]
      omega

theorem delete_selected_frame (cwd : FPath) (names : List String) (m : Comp)
    (hnames : ∀ nm ∈ names, bareName nm) (hm : ∀ nm ∈ names, nm.data ≠ m) :
    ∀ fs : FS, ∀ bs : List Nat, (cwd ++ [imagesComp, m], bs) ∈ fs →
      (cwd ++ [imagesComp, m], bs) ∈ (delete_selected cwd fs names).1 := by
  induction names with
  | nil =>
    intro fs bs hmem
    simpa [delete_selected] using hmem
  | cons f rest ih =>
    intro fs bs hmem
    have hbf : bareName f := hnames f (List.mem_cons_self f rest)
    have hrf := resolve_join_bare cwd f hbf
    have hnames' : ∀ nm ∈ rest, bareName nm :=
      fun nm hnm => hnames nm (List.mem_cons_of_mem f hnm)
    have hm' : ∀ nm ∈ rest, nm.data ≠ m :=
      fun nm hnm => hm nm (List.mem_cons_of_mem f hnm)
    simp only [delete_selected, hrf]
    split
    · exact ih hnames' hm' _ bs
        (mem_removePath_of_ne fs _ _ bs hmem
          (storage_entry_ne cwd m f.data
            (fun he => hm f (List.mem_cons_self f rest) he.symm)))
    · exact ih hnames' hm' fs bs hmem

/-! ## Claim theorems: deletion -/

/-- C1 (code bug): the delete endpoints do not sanitise the supplied
name.  With working directory `[]`, a file at `/etc/passwd` (outside the
storage directory `images/`) and the single-delete input
`../../etc/passwd`, the handler reports success and removes
`/etc/passwd`, so a parent-directory segment escapes the storage
directory instead of being rejected or neutralised. -/
theorem c1_traversal_deletes_outside_storage :
    (delete_image [] [(["etc".data, "passwd".data], [7]),
        ([imagesComp, "a.png".data], [1])] "../../etc/passwd").2
      = Except.ok "Файл удалён"
    ∧ (delete_image [] [(["etc".data, "passwd".data], [7]),
        ([imagesComp, "a.png".data], [1])] "../../etc/passwd").1
      = [([imagesComp, "a.png".data], [1])]
    ∧ ¬ inStorage [] ["etc".data, "passwd".data] := by
  decide

/-- C2: bulk delete accounts for every occurrence of every input name in
exactly one of the two output lists, both output lists are subsequences
of the input (input order, no early abort, no deduplication), and on
input `[A, B, A]` with only `A` stored the outcome is
`deleted = [A]`, `not_found = [B, A]`. -/
theorem c2_bulk_delete_accounting (cwd : FPath) (fs : FS)
    (names : List String) :
    (∀ x : String,
      (delete_selected cwd fs names).2.1.count x
        + (delete_selected cwd fs names).2.2.count x = names.count x)
    ∧ (delete_selected cwd fs names).2.1.Sublist names
    ∧ (delete_selected cwd fs names).2.2.Sublist names
    ∧ (delete_selected [] [([imagesComp, "A".data], [0])] ["A", "B", "A"]).2
        = (["A"], ["B", "A"]) :=
  ⟨(delete_selected_partition cwd names fs).1,
   (delete_selected_partition cwd names fs).2.1,
   (delete_selected_partition cwd names fs).2.2,
   by decide⟩

/-- C7 (counterexample): with working directory `home/`, storage
`home/images/` holding only `x.png`, and a file `home/secret.txt`
outside storage, the single-delete input `../secret.txt` names no file
in the storage directory, yet the handler does not answer 404 and does
change the filesystem (it removes `home/secret.txt`). -/
theorem c7_counterexample_traversal :
    FS.existsPath [(["home".data, "secret.txt".data], [5]),
        (["home".data, imagesComp, "x.png".data], [1])]
      (["home".data] ++ [imagesComp, "../secret.txt".data]) = false
    ∧ (delete_image ["home".data]
        [(["home".data, "secret.txt".data], [5]),
         (["home".data, imagesComp, "x.png".data], [1])] "../secret.txt").2
      ≠ Except.error ⟨404, "Файл не найден"⟩
    ∧ (delete_image ["home".data]
        [(["home".data, "secret.txt".data], [5]),
         (["home".data, imagesComp, "x.png".data], [1])] "../secret.txt").1
      ≠ [(["home".data, "secret.txt".data], [5]),
         (["home".data, imagesComp, "x.png".data], [1])] := by
  decide

/-- C7 (amended): for a bare filename, single delete removes exactly the
storage file of that name and answers success when it exists, and
answers 404 leaving the filesystem unchanged when it does not. -/
theorem c7_single_delete_bare (cwd : FPath) (fs : FS) (name : String)
    (hb : bareName name) :
    (fs.existsPath (cwd ++ [imagesComp, name.data]) = true →
      (delete_image cwd fs name).2 = Except.ok "Файл удалён"
      ∧ (delete_image cwd fs name).1
          = fs.removePath (cwd ++ [imagesComp, name.data]))
    ∧ (fs.existsPath (cwd ++ [imagesComp, name.data]) = false →
      (delete_image cwd fs name).2 = Except.error ⟨404, "Файл не найден"⟩
      ∧ (delete_image cwd fs name).1 = fs) := by
  have hr := resolve_join_bare cwd name hb
  constructor
  · intro hex
    simp [delete_image, hr, hex]
  · intro hex
    simp [delete_image, hr, hex]

/-- Witness for `c7_single_delete_bare` at concrete inputs. -/
theorem c7_single_delete_bare_witness :
    (delete_image [] [([imagesComp, "x.png".data], [1])] "x.png").2
        = Except.ok "Файл удалён"
    ∧ (delete_image [] [([imagesComp, "y.png".data], [1])] "x.png").2
        = Except.error ⟨404, "Файл не найден"⟩ := by
  constructor
  · exact ((c7_single_delete_bare [] [([imagesComp, "x.png".data], [1])]
      "x.png" (by decide)).1 (by decide)).1
  · exact ((c7_single_delete_bare [] [([imagesComp, "y.png".data], [1])]
      "x.png" (by decide)).2 (by decide)).1

/-- C10: a deletion call whose supplied names are all bare filenames
leaves every storage file not named by the call present with unchanged
contents, for both the bulk endpoint and the single endpoint. -/
theorem c10_delete_frame (cwd : FPath) (fs : FS) (names : List String)
    (name2 : String) (m : Comp) (bs : List Nat)
    (hnames : ∀ nm ∈ names, bareName nm) (hb2 : bareName name2)
    (hmem : (cwd ++ [imagesComp, m], bs) ∈ fs) :
    ((∀ nm ∈ names, nm.data ≠ m) →
      (cwd ++ [imagesComp, m], bs) ∈ (delete_selected cwd fs names).1)
    ∧ (name2.data ≠ m →
      (cwd ++ [imagesComp, m], bs) ∈ (delete_image cwd fs name2).1) := by
  constructor
  · intro hm
    exact delete_selected_frame cwd names m hnames hm fs bs hmem
  · intro hm2
    have hr := resolve_join_bare cwd name2 hb2
    simp only [delete_image, hr]
    split
    · exact mem_removePath_of_ne fs _ _ bs hmem
        (storage_entry_ne cwd m name2.data (fun he => hm2 he.symm))
    · exact hmem

/-- Witness for `c10_delete_frame` at concrete inputs. -/
theorem c10_delete_frame_witness :
    ([imagesComp, "keep.png".data], [3])
        ∈ (delete_selected []
            [([imagesComp, "keep.png".data], [3]),
             ([imagesComp, "x.png".data], [1])] ["x.png"]).1
    ∧ ([imagesComp, "keep.png".data], [3])
        ∈ (delete_image []
            [([imagesComp, "keep.png".data], [3]),
             ([imagesComp, "x.png".data], [1])] "y.png").1 := by
  constructor
  · exact (c10_delete_frame []
      [([imagesComp, "keep.png".data], [3]), ([imagesComp, "x.png".data], [1])]
      ["x.png"] "y.png" "keep.png".data [3]
      (by decide) (by decide) (by decide)).1 (by decide)
  · exact (c10_delete_frame []
      [([imagesComp, "keep.png".data], [3]), ([imagesComp, "x.png".data], [1])]
      ["x.png"] "y.png" "keep.png".data [3]
      (by decide) (by decide) (by decide)).2 (by decide)

/-! ## Behaviour of the upload handler -/

/-- A fixed 32-hex-character token, standing for one draw of
`uuid.uuid4().hex`. -/
def tok32 : String := "0123456789abcdef0123456789abcdef"

theorem upload_file_unsupported (maxMB : Nat) (token : String) (cwd : FPath)
    (fs : FS) (ct filename : String) (bytes : List Nat)
    (hct : ct ∉ allowedTypes) :
    upload_file maxMB token cwd fs ct filename bytes
      = (fs, Except.error unsupportedTypeExc) := by
  simp [upload_file, hct]

theorem upload_file_too_large (maxMB : Nat) (token : String) (cwd : FPath)
    (fs : FS) (ct filename : String) (bytes : List Nat)
    (hct : ct ∈ allowedTypes) (hsize : maxMB * 1024 * 1024 < bytes.length) :
    upload_file maxMB token cwd fs ct filename bytes
      = (fs, Except.error fileTooLargeExc) := by
  simp [upload_file, hct, hsize]

theorem upload_file_accepted (maxMB : Nat) (token : String) (cwd : FPath)
    (fs : FS) (ct filename : String) (bytes : List Nat)
    (hct : ct ∈ allowedTypes) (hsize : bytes.length ≤ maxMB * 1024 * 1024) :
    upload_file maxMB token cwd fs ct filename bytes
      = (fs.writePath
          (resolve cwd (ospathJoin UPLOAD_DIR (token ++ splitext_ext filename)))
          bytes,
         Except.ok ("/images/" ++ (token ++ splitext_ext filename))) := by
  have hs2 : ¬ (maxMB * 1024 * 1024 < bytes.length) := by omega
  simp [upload_file, hct, hs2]

/-- C5: a declared media type outside jpeg/png/gif is answered with the
400 UnsupportedMediaType error and no file is written; conversely an
upload with one of the three allowed types is never answered with that
error. -/
theorem c5_media_type_gate (maxMB : Nat) (token : String) (cwd : FPath)
    (fs : FS) (ct filename : String) (bytes : List Nat) :
    (ct ∉ allowedTypes →
      (upload_file maxMB token cwd fs ct filename bytes).2
          = Except.error unsupportedTypeExc
      ∧ (upload_file maxMB token cwd fs ct filename bytes).1 = fs
      ∧ unsupportedTypeExc.status_code = 400)
    ∧ (ct ∈ allowedTypes →
      (upload_file maxMB token cwd fs ct filename bytes).2
          ≠ Except.error unsupportedTypeExc) := by
  constructor
  · intro hct
    rw [upload_file_unsupported maxMB token cwd fs ct filename bytes hct]
    exact ⟨rfl, rfl, rfl⟩
  · intro hct
    by_cases hsize : maxMB * 1024 * 1024 < bytes.length
    · rw [upload_file_too_large maxMB token cwd fs ct filename bytes hct hsize]
      intro h
      exact absurd (Except.error.inj h) (by decide)
    · rw [upload_file_accepted maxMB token cwd fs ct filename bytes hct
        (by omega)]
      intro h
      exact Except.noConfusion h

/-- Witness for `c5_media_type_gate` at concrete inputs. -/
theorem c5_media_type_gate_witness :
    (upload_file 5 tok32 [] [] "text/plain" "a.png" [1]).2
        = Except.error unsupportedTypeExc
    ∧ (upload_file 5 tok32 [] [] "image/gif" "a.gif" [1]).2
        ≠ Except.error unsupportedTypeExc := by
  constructor
  · exact ((c5_media_type_gate 5 tok32 [] [] "text/plain" "a.png" [1]).1
      (by decide)).1
  · exact (c5_media_type_gate 5 tok32 [] [] "image/gif" "a.gif" [1]).2
      (by decide)

/-- C6 (counterexample): an upload that both exceeds the size limit and
declares a non-image media type is answered with the
UnsupportedMediaType error, not the FileTooLarge error, because the
handler checks the media type first. -/
theorem c6_counterexample_oversized_bad_type :
    (List.replicate 5242881 0).length > 5 * 1024 * 1024
    ∧ (upload_file 5 tok32 [] [] "application/zip" "a.zip"
        (List.replicate 5242881 0)).2 = Except.error unsupportedTypeExc
    ∧ (upload_file 5 tok32 [] [] "application/zip" "a.zip"
        (List.replicate 5242881 0)).2 ≠ Except.error fileTooLargeExc := by
  have hct : ("application/zip" : String) ∉ allowedTypes := by decide
  have heq := upload_file_unsupported 5 tok32 [] [] "application/zip" "a.zip"
    (List.replicate 5242881 0) hct
  refine ⟨?_, ?_, ?_⟩
  · norm_num [List.length_replicate]
  · rw [heq]
  · rw [heq]
    intro h
    exact absurd (Except.error.inj h) (by decide)

/-- C6 (amended): an upload with an allowed media type whose byte length
exceeds `MAX_FILE_SIZE_MB` mebibytes is answered with the 400
FileTooLarge error and no file is written. -/
theorem c6_size_gate_allowed_type (maxMB : Nat) (token : String)
    (cwd : FPath) (fs : FS) (ct filename : String) (bytes : List Nat)
    (hct : ct ∈ allowedTypes)
    (hsize : maxMB * 1024 * 1024 < bytes.length) :
    (upload_file maxMB token cwd fs ct filename bytes).2
        = Except.error fileTooLargeExc
    ∧ (upload_file maxMB token cwd fs ct filename bytes).1 = fs
    ∧ fileTooLargeExc.status_code = 400 := by
  rw [upload_file_too_large maxMB token cwd fs ct filename bytes hct hsize]
  exact ⟨rfl, rfl, rfl⟩

/-- Witness for `c6_size_gate_allowed_type` at concrete inputs. -/
theorem c6_size_gate_allowed_type_witness :
    (upload_file 0 tok32 [] [] "image/png" "a.png" [0]).2
        = Except.error fileTooLargeExc
    ∧ (upload_file 0 tok32 [] [] "image/png" "a.png" [0]).1 = [] := by
  have h := c6_size_gate_allowed_type 0 tok32 [] [] "image/png" "a.png" [0]
    (by decide) (by decide)
  exact ⟨h.1, h.2.1⟩

/-- C9: for an allowed media type, the FileTooLarge error is raised iff
the byte length strictly exceeds the configured maximum; a byte length
exactly equal to the maximum is accepted. -/
theorem c9_size_boundary (maxMB : Nat) (token : String) (cwd : FPath)
    (fs : FS) (ct filename : String) (bytes : List Nat)
    (hct : ct ∈ allowedTypes) :
    ((upload_file maxMB token cwd fs ct filename bytes).2
        = Except.error fileTooLargeExc
      ↔ maxMB * 1024 * 1024 < bytes.length)
    ∧ (bytes.length = maxMB * 1024 * 1024 →
        (upload_file maxMB token cwd fs ct filename bytes).2
          = Except.ok ("/images/" ++ (token ++ splitext_ext filename))) := by
  constructor
  · constructor
    · intro h
      by_contra hn
      rw [upload_file_accepted maxMB token cwd fs ct filename bytes hct
        (by omega)] at h
      exact Except.noConfusion h
    · intro hs
      rw [upload_file_too_large maxMB token cwd fs ct filename bytes hct hs]
  · intro hs
    rw [upload_file_accepted maxMB token cwd fs ct filename bytes hct
      (by omega)]

/-- Witness for `c9_size_boundary` at concrete inputs. -/
theorem c9_size_boundary_witness :
    (upload_file 0 tok32 [] [] "image/jpeg" "a.jpg" []).2
      = Except.ok ("/images/" ++ (tok32 ++ splitext_ext "a.jpg")) :=
  (c9_size_boundary 0 tok32 [] [] "image/jpeg" "a.jpg" [] (by decide)).2
    (by decide)

theorem lastIdxAux_ge_best (c : Char) (cs : List Char) :
    ∀ (i : Nat) (best : Int), best ≤ (i : Int) →
      best ≤ lastIdxAux c i best cs := by
  induction cs with
  | nil => intro i best h; simp [lastIdxAux]
  | cons x rest ih =>
    intro i best h
    simp only [lastIdxAux]
    by_cases hx : x = c
    · rw [if_pos hx]
      exact le_trans h (ih (i + 1) (i : Int) (by push_cast; omega))
    · rw [if_neg hx]
      exact ih (i + 1) best (le_trans h (by push_cast; omega))

theorem lastIdxAux_ge_of_mem_drop (c : Char) (cs : List Char) :
    ∀ (i : Nat) (best : Int) (k : Nat), best ≤ (i : Int) →
      c ∈ cs.drop k → ((i + k : Nat) : Int) ≤ lastIdxAux c i best cs := by
  induction cs with
  | nil => intro i best k _ hmem; simp at hmem
  | cons x rest ih =>
    intro i best k hb hmem
    cases k with
    | zero =>
      simp only [List.drop_zero] at hmem
      rcases List.mem_cons.1 hmem with hcx | hcr
      · simp only [lastIdxAux, if_pos hcx.symm]
        have h1 := lastIdxAux_ge_best c rest (i + 1) (i : Int)
          (by push_cast; omega)
        have h2 : ((i + 0 : Nat) : Int) = (i : Int) := by push_cast; omega
        rw [h2]
        exact h1
      · have h1 := ih (i + 1) (if x = c then (i : Int) else best) 0
          (by split <;> [skip; skip] <;> push_cast <;> omega)
          (by simpa using hcr)
        simp only [lastIdxAux]
        have h2 : ((i + 0 : Nat) : Int) ≤ ((i + 1 + 0 : Nat) : Int) := by
          push_cast; omega
        exact le_trans h2 h1
    | succ k' =>
      simp only [List.drop_succ_cons] at hmem
      have h1 := ih (i + 1) (if x = c then (i : Int) else best) k'
        (by split <;> [skip; skip] <;> push_cast <;> omega) hmem
      simp only [lastIdxAux]
      have h2 : ((i + (k' + 1) : Nat) : Int) = ((i + 1 + k' : Nat) : Int) := by
        push_cast; omega
      rw [h2]
      exact h1

theorem lastIdxOfI_ge_neg_one (cs : List Char) (c : Char) :
    (-1 : Int) ≤ lastIdxOfI cs c :=
  lastIdxAux_ge_best c cs 0 (-1) (by omega)

theorem lastIdxOfI_ge_of_mem_drop (cs : List Char) (c : Char) (k : Nat)
    (h : c ∈ cs.drop k) : (k : Int) ≤ lastIdxOfI cs c := by
  have h1 := lastIdxAux_ge_of_mem_drop c cs 0 (-1) k (by omega) h
  simpa [lastIdxOfI] using h1

theorem splitext_ext_no_slash (p : String) : '/' ∉ (splitext_ext p).data := by
  simp only [splitext_ext]
  split
  · rename_i hcond
    intro hmem
    have h3 := lastIdxOfI_ge_of_mem_drop p.data '/'
      (lastIdxOfI p.data '.').toNat hmem
    have h4 := lastIdxOfI_ge_neg_one p.data '/'
    have h5 := hcond.1
    omega
  · simp

theorem bareName_token_ext (token : String) (htok : isHex32 token)
    (filename : String) : bareName (token ++ splitext_ext filename) := by
  obtain ⟨hlen, hhex⟩ := htok
  have h32 : token.data.length = 32 := hlen
  have hdata : (token ++ splitext_ext filename).data
      = token.data ++ (splitext_ext filename).data := String.data_append ..
  refine ⟨?_, ?_, ?_, ?_⟩
  · rw [hdata]
    intro h
    have := List.append_eq_nil.1 h
    have hl0 : token.data.length = 0 := by rw [this.1]; rfl
    omega
  · rw [hdata]
    intro h
    rcases List.mem_append.1 h with h1 | h2
    · exact absurd (hhex '/' h1) (by decide)
    · exact splitext_ext_no_slash filename h2
  · intro h
    have hl : (token ++ splitext_ext filename).data.length = 1 := by
      rw [h]; rfl
    rw [hdata, List.length_append] at hl
    omega
  · intro h
    have hl : (token ++ splitext_ext filename).data.length = 2 := by
      rw [h]; rfl
    rw [hdata, List.length_append] at hl
    omega

/-- C4 (counterexample): for the uploaded filename `.bashrc` (a dotfile,
whose only dot starts the basename) the handler stores the file under
the bare token with no extension, not under token plus the last
dot-delimited suffix (`.bashrc` / `bashrc`) the claim prescribes. -/
theorem c4_counterexample_dotfile :
    splitext_ext ".bashrc" = ""
    ∧ (upload_file 5 tok32 [] [] "image/png" ".bashrc" [1]).2
        = Except.ok ("/images/" ++ tok32)
    ∧ (upload_file 5 tok32 [] [] "image/png" ".bashrc" [1]).2
        ≠ Except.ok ("/images/" ++ (tok32 ++ ".bashrc"))
    ∧ (upload_file 5 tok32 [] [] "image/png" ".bashrc" [1]).2
        ≠ Except.ok ("/images/" ++ (tok32 ++ "bashrc")) := by
  decide

/-- C4 (amended): an accepted upload is stored in the storage directory
under the name `token ++ ext` — the 32-hex-char token followed by the
extension `os.path.splitext` yields (the suffix from the last dot,
except that leading dots of the basename never start an extension) —
with the full byte stream as contents, and the handler answers with the
URL `/images/<that name>`. -/
theorem c4_upload_stored_name (maxMB : Nat) (token : String) (cwd : FPath)
    (fs : FS) (ct filename : String) (bytes : List Nat)
    (hct : ct ∈ allowedTypes) (hsize : bytes.length ≤ maxMB * 1024 * 1024)
    (htok : isHex32 token) :
    (upload_file maxMB token cwd fs ct filename bytes).2
        = Except.ok ("/images/" ++ (token ++ splitext_ext filename))
    ∧ (cwd ++ [imagesComp, (token ++ splitext_ext filename).data], bytes)
        ∈ (upload_file maxMB token cwd fs ct filename bytes).1
    ∧ (token ++ splitext_ext filename).data.take 32 = token.data := by
  have hacc := upload_file_accepted maxMB token cwd fs ct filename bytes
    hct hsize
  have hbare := bareName_token_ext token htok filename
  have hres := resolve_join_bare cwd (token ++ splitext_ext filename) hbare
  refine ⟨?_, ?_, ?_⟩
  · rw [hacc]
  · rw [hacc]
    simp only [hres, FS.writePath]
    exact List.mem_cons_self _ _
  · obtain ⟨hlen, _⟩ := htok
    have h32 : token.data.length = 32 := hlen
    rw [String.data_append, List.take_left' h32]

/-- Witness for `c4_upload_stored_name` at concrete inputs. -/
theorem c4_upload_stored_name_witness :
    (upload_file 5 tok32 [] [] "image/png" "pic.jpg" [9, 9]).2
      = Except.ok ("/images/" ++ (tok32 ++ splitext_ext "pic.jpg")) :=
  (c4_upload_stored_name 5 tok32 [] [] "image/png" "pic.jpg" [9, 9]
    (by decide) (by decide) (by decide)).1

/-! ## Behaviour of the listing handler -/

theorem strLtB_asymm : ∀ as bs : List Char,
    strLtB as bs = true → strLtB bs as = false := by
  intro as
  induction as with
  | nil =>
    intro bs h
    cases bs with
    | nil => simp [strLtB] at h
    | cons y ys => simp [strLtB]
  | cons x xs ih =>
    intro bs h
    cases bs with
    | nil => simp [strLtB] at h
    | cons y ys =>
      simp only [strLtB] at h ⊢
      by_cases hxy : x < y
      · rw [if_neg (lt_asymm hxy), if_pos hxy]
      · by_cases hyx : y < x
        · rw [if_neg hxy, if_pos hyx] at h
          exact absurd h (by simp)
        · rw [if_neg hxy, if_neg hyx] at h
          rw [if_neg hyx, if_neg hxy]
          exact ih ys h

theorem strLtB_trans_ge : ∀ as bs cs : List Char,
    strLtB as bs = false → strLtB bs cs = false → strLtB as cs = false := by
  intro as
  induction as with
  | nil =>
    intro bs cs h1 h2
    cases bs with
    | nil => exact h2
    | cons y ys => simp [strLtB] at h1
  | cons x xs ih =>
    intro bs cs h1 h2
    cases bs with
    | nil =>
      cases cs with
      | nil => simp [strLtB]
      | cons z zs => simp [strLtB] at h2
    | cons y ys =>
      cases cs with
      | nil => simp [strLtB]
      | cons z zs =>
        simp only [strLtB] at h1 h2 ⊢
        by_cases hxy : x < y
        · rw [if_pos hxy] at h1
          exact absurd h1 (by simp)
        · by_cases hyz : y < z
          · rw [if_pos hyz] at h2
            exact absurd h2 (by simp)
          · by_cases hyx : y < x
            · by_cases hzy : z < y
              · have hzx : z < x := lt_trans hzy hyx
                rw [if_neg (lt_asymm hzx), if_pos hzx]
              · have hyz' : y = z := le_antisymm (not_lt.1 hzy) (not_lt.1 hyz)
                have hzx : z < x := hyz' ▸ hyx
                rw [if_neg (lt_asymm hzx), if_pos hzx]
            · have hxy' : x = y := le_antisymm (not_lt.1 hyx) (not_lt.1 hxy)
              rw [if_neg hxy, if_neg hyx] at h1
              by_cases hzy : z < y
              · have hzx : z < x := hxy' ▸ hzy
                rw [if_neg (lt_asymm hzx), if_pos hzx]
              · have hyz' : y = z := le_antisymm (not_lt.1 hzy) (not_lt.1 hyz)
                have hxz : ¬ x < z := by rw [hxy', hyz']; exact lt_irrefl z
                have hzx : ¬ z < x := by rw [hxy', hyz']; exact lt_irrefl z
                rw [if_neg hxz, if_neg hzx]
                rw [if_neg hyz, if_neg hzy] at h2
                exact ih ys zs h1 h2

theorem sortedFiles_perm (files : List String) :
    (sortedFiles files).Perm files :=
  List.perm_insertionSort _ files

theorem sortedFiles_sorted (files : List String) :
    (sortedFiles files).Sorted fun s t => strLeB s t = true := by
  haveI : IsTotal String (fun s t => strLeB s t = true) := ⟨by
    intro s t
    cases hb : strLtB t.data s.data with
    | false => exact Or.inl (by simp [strLeB, hb])
    | true => exact Or.inr (by simp [strLeB, strLtB_asymm _ _ hb])⟩
  haveI : IsTrans String (fun s t => strLeB s t = true) := ⟨by
    intro s t u h1 h2
    simp only [strLeB, Bool.not_eq_true'] at h1 h2 ⊢
    exact strLtB_trans_ge u.data t.data s.data h2 h1⟩
  exact List.sorted_insertionSort _ files

theorem pySlice_nonneg (xs : List String) (a : Int) (ha : 0 ≤ a) :
    pySlice xs a (a + 50) = (xs.drop a.toNat).take 50 := by
  simp only [pySlice]
  rw [if_neg (show ¬ (a < 0) by omega),
    if_neg (show ¬ (a + 50 < 0) by omega)]
  by_cases hc : a ≤ (xs.length : Int)
  · rw [min_eq_left hc]
    by_cases hc2 : a + 50 ≤ (xs.length : Int)
    · rw [min_eq_left hc2]
      have h50 : (a + 50 - a).toNat = 50 := by omega
      rw [h50]
    · rw [min_eq_right (by omega)]
      have hlen : (xs.drop a.toNat).length = xs.length - a.toNat :=
        List.length_drop ..
      rw [List.take_of_length_le (by rw [hlen]; omega),
        List.take_of_length_le (by rw [hlen]; omega)]
  · rw [min_eq_right (by omega), min_eq_right (by omega)]
    have hdrop1 : xs.drop (xs.length : Int).toNat = [] :=
      List.drop_eq_nil_iff.2 (by omega)
    have hdrop2 : xs.drop a.toNat = [] :=
      List.drop_eq_nil_iff.2 (by omega)
    rw [hdrop1, hdrop2]
    simp

theorem pySlice_page_zero (xs : List String) : pySlice xs (-50) 0 = [] := by
  simp only [pySlice]
  rw [if_pos (show (-50 : Int) < 0 by norm_num),
    if_neg (show ¬ ((0 : Int) < 0) by norm_num)]
  have hij : (min (0 : Int) (xs.length : Int)
      - max ((xs.length : Int) + -50) 0).toNat = 0 := by
    have h1 : min (0 : Int) (xs.length : Int) ≤ 0 := min_le_left _ _
    have h2 : (0 : Int) ≤ max ((xs.length : Int) + -50) 0 := le_max_right _ _
    omega
  rw [hij]
  simp

/-- 51 stored filenames, used to exercise negative-page slicing. -/
def files51 : List String :=
  ["f00", "f01", "f02", "f03", "f04", "f05", "f06", "f07", "f08", "f09",
   "f10", "f11", "f12", "f13", "f14", "f15", "f16", "f17", "f18", "f19",
   "f20", "f21", "f22", "f23", "f24", "f25", "f26", "f27", "f28", "f29",
   "f30", "f31", "f32", "f33", "f34", "f35", "f36", "f37", "f38", "f39",
   "f40", "f41", "f42", "f43", "f44", "f45", "f46", "f47", "f48", "f49",
   "f50"]

/-- C3 (counterexample): with 51 stored files, the negative page number
`-1` yields a non-empty slice (Python's negative slice indices count
from the end of the list), not the empty slice the claim prescribes for
every non-positive page number. -/
theorem c3_counterexample_negative_page :
    (images_page files51 (-1)).images = [("f00", "/images/f00")]
    ∧ (images_page files51 (-1)).images ≠ [] := by
  decide

/-- C3 (amended): the listing sorts all directory entries
lexicographically ascending (a permutation of the listing, sorted by
code-point order); every page `k ≥ 1` shows exactly the sorted entries
at indices `[(k-1)*50, (k-1)*50+50)`; page 0 and every page `k ≥ 1`
past the data yield an empty slice; negative pages follow Python's
negative slice-index semantics instead of being empty. -/
theorem c3_listing_pagination (files : List String) (page : Int) :
    (sortedFiles files).Perm files
    ∧ ((sortedFiles files).Sorted fun s t => strLeB s t = true)
    ∧ (1 ≤ page →
        (images_page files page).images
          = (((sortedFiles files).drop ((page - 1) * 50).toNat).take 50).map
              fun f => (f, "/images/" ++ f))
    ∧ (images_page files 0).images = []
    ∧ (1 ≤ page → (files.length : Int) ≤ (page - 1) * 50 →
        (images_page files page).images = []) := by
  refine ⟨sortedFiles_perm files, sortedFiles_sorted files, ?_, ?_, ?_⟩
  · intro hp
    simp only [images_page]
    rw [pySlice_nonneg _ _ (by omega)]
  · simp only [images_page]
    rw [show (((0 : Int) - 1) * 50) = -50 from by norm_num,
      show ((-50 : Int) + 50) = 0 from by norm_num, pySlice_page_zero]
    simp
  · intro hp hlenb
    simp only [images_page]
    rw [pySlice_nonneg _ _ (by omega)]
    have hlen := (sortedFiles_perm files).length_eq
    have hdrop : (sortedFiles files).drop ((page - 1) * 50).toNat = [] :=
      List.drop_eq_nil_iff.2 (by omega)
    rw [hdrop]
    simp

/-- Witness for `c3_listing_pagination` at concrete inputs. -/
theorem c3_listing_pagination_witness :
    (images_page ["b", "a"] 1).images
      = [("a", "/images/a"), ("b", "/images/b")]
    ∧ (images_page ["b", "a"] 2).images = [] := by
  constructor
  · exact ((c3_listing_pagination ["b", "a"] 1).2.2.1 (by decide)).trans
      (by decide)
  · exact (c3_listing_pagination ["b", "a"] 2).2.2.2.2 (by decide) (by decide)

/-- C8: the listing reports `has_next = true` exactly when
`(page-1)*50+50 < N` for `N` stored files, and every page `k ≥ 1`
strictly past the data yields an empty list together with
`has_next = false`. -/
theorem c8_has_next_iff (files : List String) (page : Int) :
    ((images_page files page).has_next = true
      ↔ (page - 1) * 50 + 50 < (files.length : Int))
    ∧ (1 ≤ page → (files.length : Int) ≤ (page - 1) * 50 →
        (images_page files page).images = []
        ∧ (images_page files page).has_next = false) := by
  have hlen := (sortedFiles_perm files).length_eq
  constructor
  · simp only [images_page, decide_eq_true_eq]
    rw [hlen]
  · intro hp hN
    constructor
    · simp only [images_page]
      rw [pySlice_nonneg _ _ (by omega)]
      have hdrop : (sortedFiles files).drop ((page - 1) * 50).toNat = [] :=
        List.drop_eq_nil_iff.2 (by omega)
      rw [hdrop]
      simp
    · simp only [images_page]
      apply decide_eq_false
      rw [hlen]
      omega

/-- Witness for `c8_has_next_iff` at concrete inputs. -/
theorem c8_has_next_iff_witness :
    (images_page ["a"] 2).images = []
    ∧ (images_page ["a"] 2).has_next = false :=
  (c8_has_next_iff ["a"] 2).2 (by decide) (by decide)

